import Mathlib

/-!
Shallow embedding of the state-evaluation pipeline of the warp / redstone
smart-contracts engine, for checking the specification's claims against the
code.

Embedded sources:
- `src/core/modules/impl/CacheableStateEvaluator.ts` (`eval`, `putInCache`),
- `src/core/modules/impl/DefaultStateEvaluator.ts` (`doReadState`, `canBeCached`),
- `src/core/modules/impl/handler/JsHandlerApi.ts` (`handle`),
- `src/core/modules/impl/CacheableInteractionsLoader.ts` (`load`),
- `src/core/modules/impl/WarpGatewayInteractionsLoader.ts` (`load`),
- `src/cache/impl/LevelDbCache.ts` (`prune`).

Modelling conventions: JavaScript objects used as `Record<string, T>` maps
become association lists with insert-or-replace assignment (`setKV`), which
preserves JS insertion order; `undefined`-able values become `Option`;
promise rejection becomes `Except`; logging, benchmarking and other
side effects that no claim observes are dropped.
-/

set_option autoImplicit false

namespace Warp

/-! ### JS `Record<string, T>` objects -/

/-- Assignment `m[k] = v` on a JS object: replaces the value of an existing
key in place, appends a fresh key at the end (JS insertion order). -/
def setKV {κ α : Type} [DecidableEq κ] : List (κ × α) → κ → α → List (κ × α)
  | [], k, v => [(k, v)]
  | (k', v') :: rest, k, v =>
      if k' = k then (k, v) :: rest else (k', v') :: setKV rest k v

/-- Read `m[k]` on a JS object: `none` plays the role of `undefined`. -/
def lookupKV {κ α : Type} [DecidableEq κ] : List (κ × α) → κ → Option α
  | [], _ => none
  | (k', v') :: rest, k => if k' = k then some v' else lookupKV rest k

theorem lookupKV_setKV_self {κ α : Type} [DecidableEq κ]
    (m : List (κ × α)) (k : κ) (v : α) : lookupKV (setKV m k v) k = some v := by
  induction m with
  | nil => simp [setKV, lookupKV]
  | cons hd tl ih =>
      obtain ⟨k', v'⟩ := hd
      by_cases h : k' = k
      · simp [setKV, lookupKV, h]
      · simp [setKV, lookupKV, h, ih]

theorem lookupKV_setKV_other {κ α : Type} [DecidableEq κ]
    (m : List (κ × α)) (k k₀ : κ) (v : α) (h : k₀ ≠ k) :
    lookupKV (setKV m k v) k₀ = lookupKV m k₀ := by
  induction m with
  | nil =>
      have h' : ¬k = k₀ := fun hh => h hh.symm
      simp [setKV, lookupKV, h']
  | cons hd tl ih =>
      obtain ⟨k', v'⟩ := hd
      by_cases hk : k' = k
      · subst hk
        have h' : ¬k' = k₀ := fun hh => h hh.symm
        simp [setKV, lookupKV, h']
      · simp only [setKV, if_neg hk, lookupKV]
        by_cases hk0 : k' = k₀ <;> simp [hk0, ih]

/-! ### Data model: interactions (`GQLNodeInterface`) -/

/-- An interaction transaction as the evaluator sees it
(`legacy/gqlResult.ts` `GQLNodeInterface`), restricted to the fields the
embedded operations read.  `inputTag` holds the value of the `Input` tag
addressed to the evaluated contract (the result of
`TagsParser.getInputTag`, `none` when the tag is missing);
`interactWriteTargets` holds the values of the `Interact-Write` tags
(`TagsParser` itself is not under `src/`; spec §6 describes `Interact-Write`
as "contract id target for internal writes"). -/
structure GQLNodeInterface where
  id : String
  sortKey : String
  dry : Bool
  confirmationStatus : Option String
  ownerAddress : String
  inputTag : Option String
  interactWriteTargets : List String
  contractTag : String
  deriving Repr, DecidableEq

/-- Modelled from the spec: `TagsParser.isInteractWrite` is not under `src/`;
spec §4.7 step 5 classifies an interaction as an internal write on `this`
contract when it carries an `Interact-Write` marker targeting it. -/
def isInteractWrite (tx : GQLNodeInterface) (contractTxId : String) : Bool :=
  tx.interactWriteTargets.contains contractTxId

/-- Modelled from the spec: `LexicographicalInteractionsSorter.genesisSortKey`
is not under `src/`; spec §3 gives real sort-keys the shape
`<padded_block_height(12)>,<arweave_block_ms(13)>,<hash(64)>` and the genesis
sort-key compares less than every real one. -/
def genesisSortKey : String :=
  String.mk (List.replicate 12 '0') ++ "," ++ String.mk (List.replicate 13 '0') ++ "," ++
    String.mk (List.replicate 64 '0')

/-! ### `EvalStateResult` and the sort-key cache -/

/-- `core/modules/StateEvaluator.ts`: `EvalStateResult<State>`.  The two
`Record<string, _>` maps are association lists keyed by interaction id. -/
structure EvalStateResult (S : Type) where
  state : S
  validity : List (String × Bool)
  errorMessages : List (String × String)
  deriving Repr, DecidableEq

/-- The persistent sort-key cache, as the map it implements:
`(contract_tx_id, sort_key) → EvalStateResult` (`SortKeyCache` contract,
spec §4.2). -/
abbrev SortKeyCache (S : Type) := List ((String × String) × EvalStateResult S)

/-- `SortKeyCache.put` — overwrites the entry at `(contractTxId, sortKey)`. -/
def cachePut {S : Type} (cache : SortKeyCache S) (contractTxId sortKey : String)
    (v : EvalStateResult S) : SortKeyCache S :=
  setKV cache (contractTxId, sortKey) v

/-- `DefaultStateEvaluator.ts` bottom: `canBeCached(tx)` — `true` when
`confirmationStatus` is `undefined` (non-redstone gateway) or `'confirmed'`. -/
def canBeCached (tx : GQLNodeInterface) : Bool :=
  match tx.confirmationStatus with
  | none => true
  | some s => s = "confirmed"

/-- `CacheableStateEvaluator.putInCache`: early-returns (cache untouched) on a
dry transaction and on a defined, non-`'confirmed'` confirmation status;
otherwise puts `EvalStateResult(state, validity, errorMessages || {})` at
`(contractTxId, transaction.sortKey)`. -/
def putInCache {S : Type} (cache : SortKeyCache S) (contractTxId : String)
    (tx : GQLNodeInterface) (st : EvalStateResult S) : SortKeyCache S :=
  if tx.dry then cache
  else if tx.confirmationStatus ≠ none ∧ tx.confirmationStatus ≠ some "confirmed" then cache
  else cachePut cache contractTxId tx.sortKey ⟨st.state, st.validity, st.errorMessages⟩

/-! ### The inf-loop guard of `CacheableStateEvaluator.eval` -/

/-- `contract/Contract.ts`: an entry of the `currentTx` call stack — the pair
of a contract tx id and the interaction being processed up the call chain. -/
structure CurrentTx where
  contractTxId : String
  interactionTxId : String
  deriving Repr, DecidableEq

/-- One pass of the guard loop body of `CacheableStateEvaluator.eval`
(lines 57–70): for a stack entry of this contract, find the first
interaction with the entry's interaction tx id and `splice(index)` — drop it
and everything after it. -/
def spliceForEntry (entry : CurrentTx) (contractTxId : String)
    (missing : List GQLNodeInterface) : List GQLNodeInterface :=
  if entry.contractTxId = contractTxId then
    match missing.findIdx? (fun tx => tx.id = entry.interactionTxId) with
    | some index => missing.take index
    | none => missing
  else missing

/-- The `for (const entry of currentTx || [])` guard loop of
`CacheableStateEvaluator.eval`. -/
def infLoopGuard (currentTx : List CurrentTx) (contractTxId : String)
    (missing : List GQLNodeInterface) : List GQLNodeInterface :=
  currentTx.foldl (fun m entry => spliceForEntry entry contractTxId m) missing

/-! ### Handler results and `JsHandlerApi.handle` -/

/-- `HandlerExecutorFactory.ts`: `InteractionResult` — the tagged sum the
handler returns, `type ∈ {'ok','error','exception'}` with the new (`ok`) or
unchanged (`error`/`exception`) state, the error message, and the guest's
`result` value (kept opaque as a string). -/
inductive InteractionResult (S : Type) where
  | ok (state : S) (result : Option String)
  | error (errorMessage : String) (state : S) (result : Option String)
  | exception (errorMessage : String) (state : S) (result : Option String)
  deriving Repr, DecidableEq

/-- `result.type === 'ok'` -/
def InteractionResult.isOk {S : Type} : InteractionResult S → Bool
  | .ok _ _ => true
  | _ => false

/-- `result.state` (present on every variant). -/
def InteractionResult.resState {S : Type} : InteractionResult S → S
  | .ok s _ => s
  | .error _ s _ => s
  | .exception _ s _ => s

/-- What `await this.contractFunction(stateCopy, interaction)` did: either the
guest resolved with a `{state?, result?}` object, or it threw an error with
the given `name` and `message` (the per-interaction timeout, when it fires,
is one such rejection). -/
inductive GuestOutcome (S : Type) where
  | returns (state : Option S) (result : Option String)
  | throws (name message : String)
  deriving Repr, DecidableEq

namespace JsHandlerApi

/-- `handler/JsHandlerApi.ts` `handle`: a resolved guest result with a defined
`state` or `result` yields `type:'ok'` (with `handlerResult.state ||
currentResult.state`; the JS `||` also falls back on a defined-but-falsy
state, a corner no claim touches); a resolved result with neither defined is
re-thrown and caught as an unexpected exception; a thrown error named
`'ContractError'` yields `type:'error'` with the thrown message, the incoming
state and `result: null`; any other thrown error yields `type:'exception'`.
The KV sub-store commit/rollback/close calls are effects no claim observes. -/
def handle {S : Type} (currentResult : EvalStateResult S) (outcome : GuestOutcome S) :
    InteractionResult S :=
  match outcome with
  | .returns st res =>
      if st.isSome || res.isSome then
        .ok (st.getD currentResult.state) res
      else
        .exception "Unexpected result from contract" currentResult.state none
  | .throws name message =>
      if name = "ContractError" then
        .error message currentResult.state none
      else
        .exception message currentResult.state none

end JsHandlerApi

/-! ### The evaluator fold (`DefaultStateEvaluator.doReadState`) -/

/-- Outcome of `writingContract.readState(...)` inside the internal-write
branch: the writing contract's fold resolved with its
`SortKeyCacheResult.cachedValue`, or it rejected with an error the `catch`
block recognises (`ContractError{unsafeClientSkip|constructor|blacklistedSkip}`
or `NonWhitelistedSourceError`), or with any other error (re-thrown). -/
inductive WriterOutcome (S : Type) where
  | success (w : EvalStateResult S)
  | knownSkip (message : String)
  | fatal (message : String)

/-- A fatal rejection of the evaluation promise. -/
inductive EvalError where
  | thrown (message : String)
  deriving Repr, DecidableEq

/-- The evaluation environment `doReadState` consults, with the re-entrant
and external calls as oracles: `handle` is `executionContext.handler.handle`
applied to the parsed input; `parseInput` is `JSON.parse` on an `Input` tag
value; `readWriter` is `writingContract.readState(missingInteraction.sortKey)`;
`scratchGet` is `contract.interactionState().get(contract.txId(), sortKey)`.
No VRF / EVM-signature / progress plugin is attached and no execution-context
modifier or abort signal is set (their absence is the default). -/
structure EvalEnv (S : Type) where
  internalWrites : Bool
  ignoreExceptions : Bool
  parseInput : String → Option String
  handle : EvalStateResult S → GQLNodeInterface → String → InteractionResult S
  readWriter : GQLNodeInterface → WriterOutcome S
  scratchGet : GQLNodeInterface → Option (EvalStateResult S)

/-- The mutable locals of the `doReadState` loop: `currentState`, `validity`,
`errorMessages`, `lastConfirmedTxState` and `currentSortKey`.  Where the
source aliases the live `validity` / `errorMessages` objects inside a
snapshot, the model stores the values at the point of the snapshot; no claim
reads a snapshot after a later mutation. -/
structure Acc (S : Type) where
  currentState : S
  validity : List (String × Bool)
  errorMessages : List (String × String)
  lastConfirmedTxState : Option (GQLNodeInterface × EvalStateResult S)
  currentSortKey : Option String
  deriving Repr, DecidableEq

/-- The internal-write branch of the `doReadState` loop body (source lines
530–615): read the writing contract's state; on a recognised caught error,
record it and fall into the null-`newState` case; with both the writing
contract's result and the staged scratchpad entry present, adopt the staged
state and validity when the parent's validity for this interaction is
truthy, and otherwise mark invalid and copy the writer's error message. -/
def internalWriteStep {S : Type} (env : EvalEnv S) (acc : Acc S) (tx : GQLNodeInterface) :
    Except EvalError (Acc S) :=
  match env.readWriter tx with
  | .fatal message => .error (.thrown message)
  | .knownSkip message =>
      let errorMessages := setKV acc.errorMessages tx.id message
      let lastConfirmed :=
        if canBeCached tx then
          some (tx, EvalStateResult.mk acc.currentState acc.validity errorMessages)
        else acc.lastConfirmedTxState
      .ok { acc with
            errorMessages := errorMessages
            validity := setKV acc.validity tx.id false
            lastConfirmedTxState := lastConfirmed }
  | .success w =>
      match env.scratchGet tx with
      | some n =>
          let parentValidity := (lookupKV w.validity tx.id).getD false
          let currentState := if parentValidity then n.state else acc.currentState
          let validity :=
            if parentValidity then
              setKV acc.validity tx.id ((lookupKV n.validity tx.id).getD false)
            else setKV acc.validity tx.id false
          let errorMessages :=
            if parentValidity then
              match lookupKV n.errorMessages tx.id with
              | some m => setKV acc.errorMessages tx.id m
              | none => acc.errorMessages
            else
              setKV acc.errorMessages tx.id ((lookupKV w.errorMessages tx.id).getD "")
          let toCache := EvalStateResult.mk currentState validity errorMessages
          let lastConfirmed :=
            if canBeCached tx then some (tx, toCache) else acc.lastConfirmedTxState
          .ok { acc with
                currentState := currentState
                validity := validity
                errorMessages := errorMessages
                lastConfirmedTxState := lastConfirmed }
      | none =>
          .ok { acc with validity := setKV acc.validity tx.id false }

/-- The direct branch of the `doReadState` loop body (source lines 616–688):
a missing or unparsable `Input` tag skips the interaction (`continue`); an
`exception` result with `ignoreExceptions !== true` throws; otherwise
`validity[i.id] = (type === 'ok')`, `errorMessages[i.id]` on non-ok, and the
state advances to `result.state`. -/
def directStep {S : Type} (env : EvalEnv S) (acc : Acc S) (tx : GQLNodeInterface) :
    Except EvalError (Acc S) :=
  match tx.inputTag with
  | none => .ok acc
  | some raw =>
      match env.parseInput raw with
      | none => .ok acc
      | some input =>
          let result := env.handle (EvalStateResult.mk acc.currentState acc.validity
            acc.errorMessages) tx input
          let errorMessages :=
            match result with
            | .ok _ _ => acc.errorMessages
            | .error m _ _ => setKV acc.errorMessages tx.id m
            | .exception m _ _ => setKV acc.errorMessages tx.id m
          match result with
          | .exception m _ _ =>
              if env.ignoreExceptions ≠ true then .error (.thrown m)
              else
                let validity := setKV acc.validity tx.id false
                let currentState := result.resState
                let toCache := EvalStateResult.mk currentState validity errorMessages
                let lastConfirmed :=
                  if canBeCached tx then some (tx, toCache) else acc.lastConfirmedTxState
                .ok { acc with
                      currentState := currentState
                      validity := validity
                      errorMessages := errorMessages
                      lastConfirmedTxState := lastConfirmed }
          | _ =>
              let isValidInteraction := result.isOk
              let validity := setKV acc.validity tx.id isValidInteraction
              let currentState := result.resState
              let toCache := EvalStateResult.mk currentState validity errorMessages
              let lastConfirmed :=
                if canBeCached tx then some (tx, toCache) else acc.lastConfirmedTxState
              .ok { acc with
                    currentState := currentState
                    validity := validity
                    errorMessages := errorMessages
                    lastConfirmedTxState := lastConfirmed }

/-- One iteration of the `for` loop of `DefaultStateEvaluator.doReadState`
(lines 485–738 of the source): assign `currentSortKey`, then either the
internal-write branch (`isInteractWrite && internalWrites`) or the direct
branch.  Skipped iterations (`continue`) return the accumulator with only
`currentSortKey` updated; a fatal `throw` rejects the whole fold. -/
def processInteraction {S : Type} (env : EvalEnv S) (contractTxId : String)
    (acc0 : Acc S) (tx : GQLNodeInterface) : Except EvalError (Acc S) :=
  let acc := { acc0 with currentSortKey := some tx.sortKey }
  if isInteractWrite tx contractTxId && env.internalWrites then
    internalWriteStep env acc tx
  else
    directStep env acc tx

/-- The `for` loop of `doReadState` over the missing interactions. -/
def doReadStateGo {S : Type} (env : EvalEnv S) (contractTxId : String) :
    List GQLNodeInterface → Acc S → Except EvalError (Acc S)
  | [], acc => .ok acc
  | tx :: rest, acc =>
      match processInteraction env contractTxId acc tx with
      | .error e => .error e
      | .ok acc' => doReadStateGo env contractTxId rest acc'

/-- `DefaultStateEvaluator.doReadState`: fold the missing interactions from
the base state; `currentSortKey` starts `null`. -/
def doReadState {S : Type} (env : EvalEnv S) (contractTxId : String)
    (missingInteractions : List GQLNodeInterface) (baseState : EvalStateResult S) :
    Except EvalError (Acc S) :=
  doReadStateGo env contractTxId missingInteractions
    { currentState := baseState.state
      validity := baseState.validity
      errorMessages := baseState.errorMessages
      lastConfirmedTxState := none
      currentSortKey := none }

/-! ### `CacheableStateEvaluator.eval` -/

/-- `cache/SortKeyCache.ts`: `SortKeyCacheResult` — a sort-key (nullable: the
evaluator returns `currentSortKey = null` when nothing was evaluated) paired
with the cached value. -/
structure SortKeyCacheResult (S : Type) where
  sortKey : Option String
  cachedValue : EvalStateResult S
  deriving Repr, DecidableEq

/-- The tail of `CacheableStateEvaluator.eval` after the exact-hit check:
run the inf-loop guard; with no missing interactions return the cached state
(or persist and return the initial state at the genesis sort-key); otherwise
fold the missing interactions from the cached base via `doReadState` and, as
`doReadState` ends, persist `lastConfirmedTxState` through `onStateEvaluated`
(which is `putInCache`). -/
def evalRest {S : Type} (env : EvalEnv S) (cache : SortKeyCache S)
    (cachedState : Option (SortKeyCacheResult S))
    (sortedInteractions : List GQLNodeInterface) (currentTx : List CurrentTx)
    (contractTxId : String) (initState : S) :
    Except EvalError (SortKeyCache S × SortKeyCacheResult S) :=
  let missingInteractions := infLoopGuard currentTx contractTxId sortedInteractions
  if missingInteractions = [] then
    match cachedState with
    | some cs => .ok (cache, cs)
    | none =>
        let stateToCache : EvalStateResult S := ⟨initState, [], []⟩
        .ok (cachePut cache contractTxId genesisSortKey stateToCache,
             ⟨some genesisSortKey, stateToCache⟩)
  else
    let baseState := match cachedState with
      | none => initState
      | some cs => cs.cachedValue.state
    let baseValidity := match cachedState with
      | none => []
      | some cs => cs.cachedValue.validity
    let baseErrorMessages := match cachedState with
      | none => []
      | some cs => cs.cachedValue.errorMessages
    match doReadState env contractTxId missingInteractions
        ⟨baseState, baseValidity, baseErrorMessages⟩ with
    | .error e => .error e
    | .ok acc =>
        let cache' := match acc.lastConfirmedTxState with
          | some (tx, st) => putInCache cache contractTxId tx st
          | none => cache
        .ok (cache', ⟨acc.currentSortKey, ⟨acc.currentState, acc.validity, acc.errorMessages⟩⟩)

namespace CacheableStateEvaluator

/-- `CacheableStateEvaluator.eval`: on an exact cache hit
(`cachedState.sortKey == requestedSortKey`) return the cached state
unchanged; otherwise continue with the guard / missing-interaction fold
(`Warp.evalRest`).  The handler re-seeding (`initState`) is an effect no
claim observes; mid-fold scratchpad commits (`InteractionState`, not under
`src/`) are likewise not modelled, as no settled claim reads them. -/
def eval {S : Type} (env : EvalEnv S) (cache : SortKeyCache S)
    (cachedState : Option (SortKeyCacheResult S)) (requestedSortKey : Option String)
    (sortedInteractions : List GQLNodeInterface) (currentTx : List CurrentTx)
    (contractTxId : String) (initState : S) :
    Except EvalError (SortKeyCache S × SortKeyCacheResult S) :=
  match cachedState with
  | some cs =>
      if cs.sortKey = requestedSortKey then .ok (cache, cs)
      else evalRest env cache (some cs) sortedInteractions currentTx contractTxId initState
  | none => evalRest env cache none sortedInteractions currentTx contractTxId initState

end CacheableStateEvaluator

/-! ### `WarpGatewayInteractionsLoader.load` -/

/-- One element of a gateway response's `interactions` array:
`{interaction, status}`. -/
structure GatewayInteraction where
  interaction : GQLNodeInterface
  status : String
  deriving Repr, DecidableEq

/-- A 2xx response of `GET {base}/gateway/interactions-sort-key`:
`{paging: {pages}, interactions: [...]}` (only the fields the loader reads). -/
structure PageResponse where
  pages : Nat
  interactions : List GatewayInteraction
  deriving Repr, DecidableEq

/-- The error the loader throws on a non-2xx page response — the spec's
`NetworkError` class; the thrown message names the gateway status
(`Unable to retrieve transactions. Warp gateway responded with status S.`). -/
structure NetworkError where
  status : Nat
  deriving Repr, DecidableEq

/-- `interactions.push({...interaction.interaction, confirmationStatus:
interaction.status})`. -/
def tagWithStatus (item : GatewayInteraction) : GQLNodeInterface :=
  { item.interaction with confirmationStatus := some item.status }

/-- The `do { ... } while (page < totalPages)` loop of
`WarpGatewayInteractionsLoader.load` over a gateway oracle `gw` (page number
→ parsed 2xx response, or the HTTP status of a non-2xx response).  The source
loop has no intrinsic bound (`totalPages` is re-read from every response), so
the model carries fuel; `none` means the fuel ran out before the loop did. -/
def loadPagesGo (gw : Nat → Except Nat PageResponse) :
    Nat → Nat → List GQLNodeInterface → Option (Except NetworkError (List GQLNodeInterface))
  | 0, _, _ => none
  | fuel + 1, page, acc =>
      match gw (page + 1) with
      | .error status => some (.error ⟨status⟩)
      | .ok response =>
          let acc' := acc ++ response.interactions.map tagWithStatus
          if page + 1 < response.pages then loadPagesGo gw fuel (page + 1) acc'
          else some (.ok acc')

namespace WarpGatewayInteractionsLoader

/-- `WarpGatewayInteractionsLoader.load`: `page` starts at `0` and is
pre-incremented for each request; `interactions` starts empty. -/
def load (gw : Nat → Except Nat PageResponse) (fuel : Nat) :
    Option (Except NetworkError (List GQLNodeInterface)) :=
  loadPagesGo gw fuel 0 []

end WarpGatewayInteractionsLoader

/-! ### `CacheableInteractionsLoader.load` -/

/-- Strict lexicographic comparison of strings by code point, as lists of
characters (executable, unlike `String.lt`'s instance). -/
def strLt : List Char → List Char → Bool
  | _, [] => false
  | [], _ :: _ => true
  | a :: as, b :: bs =>
      if a.toNat < b.toNat then true
      else if b.toNat < a.toNat then false
      else strLt as bs

/-- `lastCachedKey.localeCompare(toSortKey) < 0` of
`CacheableInteractionsLoader.load`: JS coerces an `undefined` argument to the
string `"undefined"`; on the sort-key alphabet (digits, comma, lowercase hex)
`localeCompare` agrees with code-point order. -/
def jsLocaleCompareLt (a : String) (b : Option String) : Bool :=
  strLt a.data (b.getD "undefined").data

namespace CacheableInteractionsLoader

/-- `CacheableInteractionsLoader.load` over its per-contract memo
(`interactionsCache`): on a miss, delegate with the caller's range and
memoize; on a hit, re-delegate from the last memoized sort-key only when the
requested `toSortKey` compares strictly greater, and otherwise return the
memoized list unchanged.  The delegate is an oracle assumed to resolve (a
delegate rejection propagates and memoizes nothing, which no claim reads). -/
def load (delegate : String → Option String → Option String → List GQLNodeInterface)
    (memo : List (String × List GQLNodeInterface)) (contractTxId : String)
    (fromSortKey toSortKey : Option String) :
    List (String × List GQLNodeInterface) × List GQLNodeInterface :=
  match lookupKV memo contractTxId with
  | none =>
      let interactions := delegate contractTxId fromSortKey toSortKey
      (setKV memo contractTxId interactions, interactions)
  | some cachedInteractions =>
      let lastCachedKey :=
        match cachedInteractions.getLast? with
        | some t => t.sortKey
        | none => genesisSortKey
      if jsLocaleCompareLt lastCachedKey toSortKey then
        let missingInteractions := delegate contractTxId (some lastCachedKey) toSortKey
        let allInteractions := cachedInteractions ++ missingInteractions
        (setKV memo contractTxId allInteractions, allInteractions)
      else (memo, cachedInteractions)

end CacheableInteractionsLoader

/-! ### `LevelDbCache.prune` -/

/-- A JS argument that may be `undefined`, `null`, or a value. -/
inductive JsArg (α : Type) where
  | undef
  | null
  | val (a : α)
  deriving Repr, DecidableEq

/-- The value `entriesStored` holds inside `prune` after the default
parameter and the `if (!entriesStored || entriesStored <= 0) entriesStored =
1` guard: the JS default `= 5` applies only to an `undefined` argument;
`!entriesStored` is true for `null` and `0`, and `entriesStored <= 0` for
non-positive numbers. -/
def effectiveEntriesStored (entriesStored : JsArg Int) : Int :=
  match entriesStored with
  | .undef => 5
  | .null => 1
  | .val k => if k = 0 ∨ k ≤ 0 then 1 else k

/-- The body of the per-contract loop of `LevelDbCache.prune`, on a contract
sublevel represented by its ascending (LevelDB iteration order) list of
sort-keys: `entries = keys({reverse: true, limit: n})`; fewer entries than
`n` → `continue`; otherwise `clear({lt: entries[entries.length - 1]})`
removes every key below the smallest retained one. -/
def pruneContract (n : Nat) (keys : List String) : List String :=
  let entries := keys.reverse.take n
  if entries.length < n then keys
  else
    match entries.getLast? with
    | some bound => keys.filter (fun k => !strLt k.data bound.data)
    | none => keys

namespace LevelDbCache

/-- `LevelDbCache.prune(entriesStored = 5)`: resolve the effective entry
count, then prune every contract sublevel. -/
def prune (db : List (String × List String)) (entriesStored : JsArg Int) :
    List (String × List String) :=
  db.map (fun p => (p.1, pruneContract (effectiveEntriesStored entriesStored).toNat p.2))

end LevelDbCache

/-! ### Helper lemmas -/

theorem strLt_irrefl : ∀ l : List Char, strLt l l = false
  | [] => rfl
  | a :: as => by simp [strLt, strLt_irrefl as]

theorem strLt_asymm : ∀ a b : List Char, strLt a b = true → strLt b a = false := by
  intro a
  induction a with
  | nil =>
      intro b h
      cases b with
      | nil => simp [strLt] at h
      | cons y ys => simp [strLt]
  | cons x xs ih =>
      intro b h
      cases b with
      | nil => simp [strLt] at h
      | cons y ys =>
          simp only [strLt] at h ⊢
          by_cases h1 : x.toNat < y.toNat
          · have h2 : ¬y.toNat < x.toNat := by omega
            simp [h1, h2]
          · by_cases h2 : y.toNat < x.toNat
            · rw [if_neg h1, if_pos h2] at h
              exact absurd h (by simp)
            · rw [if_neg h1, if_neg h2] at h
              simp [h1, h2, ih ys h]

theorem findIdx?_start_le {α : Type} (p : α → Bool) :
    ∀ (l : List α) (i j : Nat), l.findIdx? p i = some j → i ≤ j := by
  intro l
  induction l with
  | nil => intro i j h; simp [List.findIdx?_nil] at h
  | cons a l ih =>
      intro i j h
      rw [List.findIdx?_cons] at h
      by_cases hp : p a = true
      · rw [if_pos hp] at h
        injection h with h
        omega
      · rw [if_neg hp] at h
        have := ih (i + 1) j h
        omega

theorem findIdx?_take_not {α : Type} (p : α → Bool) :
    ∀ (l : List α) (i j : Nat), l.findIdx? p i = some j →
      ∀ x ∈ l.take (j - i), p x = false := by
  intro l
  induction l with
  | nil => intro i j h; simp [List.findIdx?_nil] at h
  | cons a l ih =>
      intro i j h x hx
      rw [List.findIdx?_cons] at h
      by_cases hp : p a = true
      · rw [if_pos hp] at h
        injection h with h
        subst h
        simp at hx
      · rw [if_neg hp] at h
        have hij : i + 1 ≤ j := findIdx?_start_le p l (i + 1) j h
        have hji : j - i = (j - (i + 1)) + 1 := by omega
        rw [hji] at hx
        simp only [List.take_succ_cons, List.mem_cons] at hx
        rcases hx with rfl | hx
        · simpa using hp
        · exact ih (i + 1) j h x hx

theorem spliceForEntry_append (entry : CurrentTx) (contractTxId : String)
    (missing : List GQLNodeInterface) :
    ∃ t, spliceForEntry entry contractTxId missing ++ t = missing := by
  unfold spliceForEntry
  by_cases hc : entry.contractTxId = contractTxId
  · rw [if_pos hc]
    cases hf : missing.findIdx? (fun tx => tx.id = entry.interactionTxId) with
    | some index =>
        refine ⟨missing.drop index, ?_⟩
        simp only [hf]
        exact List.take_append_drop index missing
    | none =>
        refine ⟨[], ?_⟩
        simp only [hf]
        simp
  · rw [if_neg hc]
    exact ⟨[], by simp⟩

theorem spliceForEntry_no_match {entry : CurrentTx} {contractTxId : String}
    (missing : List GQLNodeInterface) (hc : entry.contractTxId = contractTxId) :
    ∀ tx ∈ spliceForEntry entry contractTxId missing, tx.id ≠ entry.interactionTxId := by
  unfold spliceForEntry
  rw [if_pos hc]
  cases hf : missing.findIdx? (fun tx => tx.id = entry.interactionTxId) with
  | some index =>
      intro tx htx
      simp only [hf] at htx
      have := findIdx?_take_not (fun tx => decide (tx.id = entry.interactionTxId))
        missing 0 index hf tx (by simpa using htx)
      simpa using this
  | none =>
      intro tx htx
      simp only [hf] at htx
      have := List.findIdx?_eq_none_iff.mp hf tx htx
      simpa using this

theorem infLoopGuard_append (currentTx : List CurrentTx) (contractTxId : String) :
    ∀ missing : List GQLNodeInterface,
      ∃ t, infLoopGuard currentTx contractTxId missing ++ t = missing := by
  induction currentTx with
  | nil => intro missing; exact ⟨[], by simp [infLoopGuard]⟩
  | cons e ct ih =>
      intro missing
      obtain ⟨t₁, h₁⟩ := ih (spliceForEntry e contractTxId missing)
      obtain ⟨t₂, h₂⟩ := spliceForEntry_append e contractTxId missing
      refine ⟨t₁ ++ t₂, ?_⟩
      show infLoopGuard ct contractTxId (spliceForEntry e contractTxId missing) ++ (t₁ ++ t₂)
        = missing
      rw [← List.append_assoc, h₁, h₂]

theorem mem_infLoopGuard (currentTx : List CurrentTx) (contractTxId : String)
    (missing : List GQLNodeInterface) (tx : GQLNodeInterface)
    (h : tx ∈ infLoopGuard currentTx contractTxId missing) : tx ∈ missing := by
  obtain ⟨t, ht⟩ := infLoopGuard_append currentTx contractTxId missing
  rw [← ht]
  exact List.mem_append_left t h

/-! ### C3 -/

/-- C3: the inf-loop guard of `CacheableStateEvaluator.eval` only truncates
the missing-interactions list (the result is a prefix of the input), and for
every call-stack entry `(c, t)` with `c` equal to the evaluated contract's
tx id, no interaction with id `t` survives — the first such interaction and
everything after it are removed before the fold, which is what lets a
write-back cycle A-writes-B-writes-A terminate within one root `readState`
(the re-entered evaluation never re-processes the staged interaction). -/
theorem infLoopGuard_truncates_at_stack_match (currentTx : List CurrentTx)
    (contractTxId : String) (missing : List GQLNodeInterface) :
    (∃ t, infLoopGuard currentTx contractTxId missing ++ t = missing)
    ∧ (∀ e ∈ currentTx, e.contractTxId = contractTxId →
        ∀ tx ∈ infLoopGuard currentTx contractTxId missing,
          tx.id ≠ e.interactionTxId) := by
  refine ⟨infLoopGuard_append currentTx contractTxId missing, ?_⟩
  induction currentTx generalizing missing with
  | nil => intro e he; simp at he
  | cons e₀ ct ih =>
      intro e he hc tx htx
      have hstep : infLoopGuard (e₀ :: ct) contractTxId missing
          = infLoopGuard ct contractTxId (spliceForEntry e₀ contractTxId missing) := rfl
      rw [hstep] at htx
      rcases List.mem_cons.mp he with he | he
      · subst he
        exact spliceForEntry_no_match missing hc tx
          (mem_infLoopGuard ct contractTxId _ tx htx)
      · exact ih (spliceForEntry e₀ contractTxId missing) e he hc tx htx

/-! ### C1 -/

/-- C1: `CacheableStateEvaluator.putInCache` stores an entry at
`(contractTxId, tx.sortKey)` iff `tx.dry` is falsy and
`tx.confirmationStatus` is `undefined` or `'confirmed'`; for a dry or
non-confirmed interaction the cache is returned unchanged, so no such
interaction ever appears as a persisted cache key. -/
theorem putInCache_persists_iff (S : Type) (cache : SortKeyCache S)
    (contractTxId : String) (tx : GQLNodeInterface) (st : EvalStateResult S)
    (hfresh : lookupKV cache (contractTxId, tx.sortKey) = none) :
    ((lookupKV (putInCache cache contractTxId tx st) (contractTxId, tx.sortKey)).isSome = true
      ↔ tx.dry = false
          ∧ (tx.confirmationStatus = none ∨ tx.confirmationStatus = some "confirmed"))
    ∧ (¬(tx.dry = false
          ∧ (tx.confirmationStatus = none ∨ tx.confirmationStatus = some "confirmed")) →
        putInCache cache contractTxId tx st = cache) := by
  by_cases hdry : tx.dry = true
  · have hunch : putInCache cache contractTxId tx st = cache := by
      simp [putInCache, hdry]
    refine ⟨?_, fun _ => hunch⟩
    rw [hunch, hfresh]
    simp [hdry]
  · have hdry' : tx.dry = false := by simpa using hdry
    by_cases hok : tx.confirmationStatus = none ∨ tx.confirmationStatus = some "confirmed"
    · have hstore : putInCache cache contractTxId tx st
          = cachePut cache contractTxId tx.sortKey ⟨st.state, st.validity, st.errorMessages⟩ := by
        rcases hok with h | h <;> simp [putInCache, hdry', h]
      constructor
      · rw [hstore]
        simp [cachePut, lookupKV_setKV_self, hdry', hok]
      · intro hnot
        exact absurd ⟨hdry', hok⟩ hnot
    · push_neg at hok
      obtain ⟨hne, hnc⟩ := hok
      have hunch : putInCache cache contractTxId tx st = cache := by
        simp [putInCache, hdry', hne, hnc]
      refine ⟨?_, fun _ => hunch⟩
      rw [hunch, hfresh]
      simp [hne, hnc]

/-- C1 witness: a non-dry, status-less interaction lands in an empty cache. -/
theorem putInCache_persists_iff_witness :
    (lookupKV
      (putInCache ([] : SortKeyCache Nat) "c" ⟨"i1", "k1", false, none, "o", none, [], ""⟩
        ⟨7, [], []⟩) ("c", "k1")).isSome = true :=
  (putInCache_persists_iff Nat [] "c" ⟨"i1", "k1", false, none, "o", none, [], ""⟩
    ⟨7, [], []⟩ rfl).1.mpr ⟨rfl, Or.inl rfl⟩

/-! ### Concrete instances (for witnesses and counterexamples) -/

/-- A concrete direct-processing environment over `Nat` states: internal
writes disabled, exceptions ignored, `"bad"` the only unparsable input, and
a guest that leaves the state unchanged. -/
def envA : EvalEnv Nat where
  internalWrites := false
  ignoreExceptions := true
  parseInput := fun s => if s = "bad" then none else some s
  handle := fun current _ _ => .ok current.state none
  readWriter := fun _ => .success ⟨0, [], []⟩
  scratchGet := fun _ => none

/-- A concrete internal-write environment over `Nat` states: the writing
contract reports validity `true` for `"iW"` and the scratchpad stages state
`9`. -/
def envWrite : EvalEnv Nat where
  internalWrites := true
  ignoreExceptions := true
  parseInput := fun s => some s
  handle := fun current _ _ => .ok current.state none
  readWriter := fun _ => .success ⟨5, [("iW", true)], []⟩
  scratchGet := fun _ => some ⟨9, [("iW", true)], []⟩

/-- A concrete environment whose guest rejects every interaction with a
business-level `error`. -/
def envErr : EvalEnv Nat where
  internalWrites := false
  ignoreExceptions := true
  parseInput := fun s => some s
  handle := fun current _ _ => .error "boom" current.state none
  readWriter := fun _ => .success ⟨0, [], []⟩
  scratchGet := fun _ => none

/-- A direct interaction with no `Input` tag. -/
def txMissingInput : GQLNodeInterface := ⟨"i6", "k6", false, none, "o", none, [], ""⟩

/-- A well-formed direct interaction. -/
def txDirect : GQLNodeInterface := ⟨"i7", "k7", false, none, "o", some "f", [], ""⟩

/-- An internal-write interaction targeting contract `"c"`, written by
contract `"w"`. -/
def txWrite : GQLNodeInterface := ⟨"iW", "kW", false, none, "o", none, ["c"], "w"⟩

/-! ### C2 -/

/-- C2: the internal-write branch of `doReadState` (with `internalWrites`
enabled): when the writing contract's result `W` and the staged scratchpad
entry `N` are both non-null, a truthy `W.validity[i.id]` makes the current
state `N.state` and `validity[i.id] = N.validity[i.id]`, while otherwise
`validity[i.id] = false` and `errorMessages[i.id]` is copied from
`W.errorMessages[i.id]`; when `W` (caught known error) or `N` (no staged
entry) is null, `validity[i.id]` is set to `false`. -/
theorem internalWrite_validity_adoption (S : Type) (env : EvalEnv S)
    (contractTxId : String) (acc : Acc S) (tx : GQLNodeInterface)
    (hiw : isInteractWrite tx contractTxId = true)
    (hopts : env.internalWrites = true) :
    (∀ w n, env.readWriter tx = .success w → env.scratchGet tx = some n →
      ((lookupKV w.validity tx.id = some true →
          ∃ acc', processInteraction env contractTxId acc tx = .ok acc'
            ∧ acc'.currentState = n.state
            ∧ lookupKV acc'.validity tx.id = some ((lookupKV n.validity tx.id).getD false))
        ∧ (lookupKV w.validity tx.id ≠ some true →
          ∃ acc', processInteraction env contractTxId acc tx = .ok acc'
            ∧ acc'.currentState = acc.currentState
            ∧ lookupKV acc'.validity tx.id = some false
            ∧ lookupKV acc'.errorMessages tx.id
                = some ((lookupKV w.errorMessages tx.id).getD ""))))
    ∧ (∀ w, env.readWriter tx = .success w → env.scratchGet tx = none →
        ∃ acc', processInteraction env contractTxId acc tx = .ok acc'
          ∧ lookupKV acc'.validity tx.id = some false)
    ∧ (∀ message, env.readWriter tx = .knownSkip message →
        ∃ acc', processInteraction env contractTxId acc tx = .ok acc'
          ∧ lookupKV acc'.validity tx.id = some false) := by
  have hbr : processInteraction env contractTxId acc tx
      = internalWriteStep env { acc with currentSortKey := some tx.sortKey } tx := by
    simp [processInteraction, hiw, hopts]
  refine ⟨fun w n hw hn => ⟨fun htrue => ?_, fun hfalse => ?_⟩,
    fun w hw hn => ?_, fun message hm => ?_⟩
  · rw [hbr]
    simp only [internalWriteStep, hw, hn, htrue, Option.getD_some, if_true]
    exact ⟨_, rfl, by simp, by simp [lookupKV_setKV_self]⟩
  · have hv : (lookupKV w.validity tx.id).getD false = false := by
      rcases hvv : lookupKV w.validity tx.id with _ | b
      · rfl
      · cases b
        · rfl
        · exact absurd hvv hfalse
    rw [hbr]
    simp only [internalWriteStep, hw, hn, hv, Bool.false_eq_true, if_false]
    exact ⟨_, rfl, by simp, by simp [lookupKV_setKV_self], by simp [lookupKV_setKV_self]⟩
  · rw [hbr]
    simp only [internalWriteStep, hw, hn]
    exact ⟨_, rfl, by simp [lookupKV_setKV_self]⟩
  · rw [hbr]
    simp only [internalWriteStep, hm]
    exact ⟨_, rfl, by simp [lookupKV_setKV_self]⟩

/-- C2 witness: with the writing contract valid for `"iW"` and a staged
state `9`, the interaction adopts the staged state and validity. -/
theorem internalWrite_validity_adoption_witness :
    ∃ acc', processInteraction envWrite "c" ⟨0, [], [], none, none⟩ txWrite = .ok acc'
      ∧ acc'.currentState = (9 : Nat)
      ∧ lookupKV acc'.validity "iW"
          = some ((lookupKV [("iW", true)] "iW").getD false) :=
  ((internalWrite_validity_adoption Nat envWrite "c" ⟨0, [], [], none, none⟩ txWrite
    rfl rfl).1 ⟨5, [("iW", true)], []⟩ ⟨9, [("iW", true)], []⟩ rfl rfl).1 rfl

/-! ### C4 -/

/-- C4: the direct branch of `doReadState`: `validity[i.id]` becomes `true`
iff the handler returned `type:'ok'`; a non-ok result records its error
message under `errorMessages[i.id]`; an `exception` result with
`ignoreExceptions` not `true` rejects the whole fold (the next interaction
is never processed) instead of continuing. -/
theorem direct_interaction_result_handling (S : Type) (env : EvalEnv S)
    (contractTxId : String) (acc : Acc S) (tx : GQLNodeInterface)
    (raw input : String) (r : InteractionResult S)
    (hdirect : (isInteractWrite tx contractTxId && env.internalWrites) = false)
    (htag : tx.inputTag = some raw)
    (hparse : env.parseInput raw = some input)
    (hr : env.handle (EvalStateResult.mk acc.currentState acc.validity acc.errorMessages)
        tx input = r) :
    (∀ m s res rest, r = .exception m s res → env.ignoreExceptions = false →
        doReadStateGo env contractTxId (tx :: rest) acc = .error (.thrown m))
    ∧ (∀ acc', processInteraction env contractTxId acc tx = .ok acc' →
        lookupKV acc'.validity tx.id = some r.isOk
        ∧ (∀ m s res, r = .error m s res → lookupKV acc'.errorMessages tx.id = some m)
        ∧ (∀ m s res, r = .exception m s res → lookupKV acc'.errorMessages tx.id = some m)) := by
  have hbr : processInteraction env contractTxId acc tx
      = directStep env { acc with currentSortKey := some tx.sortKey } tx := by
    simp [processInteraction, hdirect]
  cases r with
  | ok s0 res0 =>
      refine ⟨fun m s res rest hre => by simp at hre, fun acc' hacc => ?_⟩
      rw [hbr] at hacc
      simp [directStep, htag, hparse, hr] at hacc
      subst hacc
      refine ⟨by simp [InteractionResult.isOk, lookupKV_setKV_self], ?_, ?_⟩
      · intro m s res hre; simp at hre
      · intro m s res hre; simp at hre
  | error m0 s0 res0 =>
      refine ⟨fun m s res rest hre => by simp at hre, fun acc' hacc => ?_⟩
      rw [hbr] at hacc
      simp [directStep, htag, hparse, hr] at hacc
      subst hacc
      refine ⟨by simp [InteractionResult.isOk, lookupKV_setKV_self], ?_, ?_⟩
      · intro m s res hre
        injection hre with h1 h2 h3
        subst h1
        simp [lookupKV_setKV_self]
      · intro m s res hre; simp at hre
  | exception m0 s0 res0 =>
      constructor
      · intro m s res rest hre hig
        injection hre with h1 h2 h3
        subst h1
        have hpe : processInteraction env contractTxId acc tx = .error (.thrown m0) := by
          rw [hbr]
          simp [directStep, htag, hparse, hr, hig]
        simp [doReadStateGo, hpe]
      · intro acc' hacc
        rw [hbr] at hacc
        by_cases hig : env.ignoreExceptions = true
        · simp [directStep, htag, hparse, hr, hig] at hacc
          subst hacc
          refine ⟨by simp [InteractionResult.isOk, lookupKV_setKV_self], ?_, ?_⟩
          · intro m s res hre; simp at hre
          · intro m s res hre
            injection hre with h1 h2 h3
            subst h1
            simp [lookupKV_setKV_self]
        · simp [directStep, htag, hparse, hr, hig] at hacc

/-- C4 witness: a guest `error` result marks the interaction invalid and
records the message. -/
theorem direct_interaction_result_handling_witness :
    lookupKV
        (⟨0, [("i7", false)], [("i7", "boom")],
          some (txDirect, ⟨0, [("i7", false)], [("i7", "boom")]⟩),
          some "k7"⟩ : Acc Nat).validity "i7"
      = some (InteractionResult.isOk (.error "boom" (0 : Nat) none))
    ∧ (∀ m s res, (InteractionResult.error "boom" (0 : Nat) none) = .error m s res →
        lookupKV
          (⟨0, [("i7", false)], [("i7", "boom")],
            some (txDirect, ⟨0, [("i7", false)], [("i7", "boom")]⟩),
            some "k7"⟩ : Acc Nat).errorMessages "i7" = some m)
    ∧ (∀ m s res, (InteractionResult.error "boom" (0 : Nat) none) = .exception m s res →
        lookupKV
          (⟨0, [("i7", false)], [("i7", "boom")],
            some (txDirect, ⟨0, [("i7", false)], [("i7", "boom")]⟩),
            some "k7"⟩ : Acc Nat).errorMessages "i7" = some m) :=
  (direct_interaction_result_handling Nat envErr "c" ⟨0, [], [], none, none⟩ txDirect
    "f" "f" (.error "boom" 0 none) rfl rfl rfl rfl).2 _ rfl

/-! ### C6 (corrected) -/

/-- C6 counterexample: a direct interaction whose `Input` tag is missing is
skipped without any `validity` entry — the claim's `validity[i.id] = false`
does not hold; the fold does continue with the next interaction. -/
theorem doReadState_missing_input_no_validity_entry :
    doReadState envA "c" [txMissingInput, txDirect] ⟨0, [], []⟩
        = .ok ⟨0, [("i7", true)], [], some (txDirect, ⟨0, [("i7", true)], []⟩), some "k7"⟩
    ∧ lookupKV ([("i7", true)] : List (String × Bool)) "i6" = none := by
  constructor
  · rfl
  · rfl

/-- C6 as amended: an interaction whose `Input` tag is missing or unparsable
is skipped — `validity`, `errorMessages` and the state are left unchanged
(no entry is created for `i.id`) — and the fold continues with the next
interaction. -/
theorem inputTag_missing_skips (S : Type) (env : EvalEnv S) (contractTxId : String)
    (acc : Acc S) (tx : GQLNodeInterface) (rest : List GQLNodeInterface)
    (hdirect : (isInteractWrite tx contractTxId && env.internalWrites) = false)
    (hmiss : tx.inputTag = none
      ∨ ∃ raw, tx.inputTag = some raw ∧ env.parseInput raw = none) :
    processInteraction env contractTxId acc tx
        = .ok { acc with currentSortKey := some tx.sortKey }
    ∧ doReadStateGo env contractTxId (tx :: rest) acc
        = doReadStateGo env contractTxId rest { acc with currentSortKey := some tx.sortKey } := by
  have h1 : processInteraction env contractTxId acc tx
      = .ok { acc with currentSortKey := some tx.sortKey } := by
    rcases hmiss with hnone | ⟨raw, hraw, hparse⟩
    · simp [processInteraction, hdirect, directStep, hnone]
    · simp [processInteraction, hdirect, directStep, hraw, hparse]
  exact ⟨h1, by simp [doReadStateGo, h1]⟩

/-- C6 witness (for the amended claim): the concrete tag-less interaction is
skipped with only `currentSortKey` updated. -/
theorem inputTag_missing_skips_witness :
    processInteraction envA "c" ⟨0, [], [], none, none⟩ txMissingInput
        = .ok { (⟨0, [], [], none, none⟩ : Acc Nat) with currentSortKey := some txMissingInput.sortKey }
    ∧ doReadStateGo envA "c" [txMissingInput] ⟨0, [], [], none, none⟩
        = doReadStateGo envA "c" []
            { (⟨0, [], [], none, none⟩ : Acc Nat) with currentSortKey := some txMissingInput.sortKey } :=
  inputTag_missing_skips Nat envA "c" ⟨0, [], [], none, none⟩ txMissingInput []
    rfl (Or.inl rfl)

/-! ### C5 -/

/-- C5: when the contract function throws an error named `'ContractError'`,
`JsHandlerApi.handle` returns (does not throw) `type:'error'` with the thrown
message, the incoming `currentResult.state` unchanged, and `result: null`. -/
theorem jsHandle_contractError_is_known_error (S : Type)
    (currentResult : EvalStateResult S) (message : String) :
    JsHandlerApi.handle currentResult (.throws "ContractError" message)
      = .error message currentResult.state none := by
  simp [JsHandlerApi.handle]

/-! ### C8 -/

theorem loadPagesGo_ok (gw : Nat → Except Nat PageResponse) (resp : Nat → PageResponse)
    (P : Nat)
    (hcons : ∀ k, 1 ≤ k → k ≤ P → gw k = .ok (resp k) ∧ (resp k).pages = P) :
    ∀ (fuel page : Nat) (acc : List GQLNodeInterface),
      page < P → P - page ≤ fuel →
      loadPagesGo gw fuel page acc
        = some (.ok (acc ++ ((List.range' (page + 1) (P - page)).map
            (fun k => (resp k).interactions.map tagWithStatus)).flatten)) := by
  intro fuel
  induction fuel with
  | zero => intro page acc hlt hfuel; omega
  | succ fuel ih =>
      intro page acc hlt hfuel
      obtain ⟨hgw, hpg⟩ := hcons (page + 1) (by omega) (by omega)
      simp only [loadPagesGo, hgw]
      by_cases hcont : page + 1 < (resp (page + 1)).pages
      · rw [if_pos hcont]
        rw [hpg] at hcont
        rw [ih (page + 1) (acc ++ (resp (page + 1)).interactions.map tagWithStatus)
          hcont (by omega)]
        have hrange : List.range' (page + 1) (P - page)
            = (page + 1) :: List.range' (page + 2) (P - (page + 1)) := by
          have hsub : P - page = (P - (page + 1)) + 1 := by omega
          rw [hsub, List.range'_succ]
        rw [hrange]
        simp [List.append_assoc]
      · rw [if_neg hcont]
        rw [hpg] at hcont
        have hsub : P - page = 1 := by omega
        rw [hsub]
        simp

theorem loadPagesGo_err (gw : Nat → Except Nat PageResponse) (resp : Nat → PageResponse)
    (P j status : Nat) (hjP : j ≤ P)
    (hpre : ∀ k, 1 ≤ k → k < j → gw k = .ok (resp k) ∧ (resp k).pages = P)
    (herr : gw j = .error status) :
    ∀ (fuel page : Nat) (acc : List GQLNodeInterface),
      page < j → j - page ≤ fuel →
      loadPagesGo gw fuel page acc = some (.error ⟨status⟩) := by
  intro fuel
  induction fuel with
  | zero => intro page acc h1 h2; omega
  | succ fuel ih =>
      intro page acc h1 h2
      by_cases hpj : page + 1 = j
      · rw [← hpj] at herr
        simp only [loadPagesGo, herr]
      · have hklt : page + 1 < j := by omega
        obtain ⟨hgw, hpg⟩ := hpre (page + 1) (by omega) hklt
        simp only [loadPagesGo, hgw]
        have hcont : page + 1 < (resp (page + 1)).pages := by rw [hpg]; omega
        rw [if_pos hcont]
        exact ih (page + 1) _ hklt (by omega)

/-- C8: `WarpGatewayInteractionsLoader.load` keeps requesting pages while
`page < paging.pages`; when all `P` pages resolve (each reporting `P` total
pages) it returns the concatenation of every page's interactions, each
tagged with its confirmation status; and when any requested page yields a
non-2xx response the whole load rejects with the network error naming the
gateway status — a partial list is never returned. -/
theorem warpGatewayLoader_pages (gw : Nat → Except Nat PageResponse)
    (resp : Nat → PageResponse) (P fuel : Nat) :
    ((∀ k, 1 ≤ k → k ≤ P → gw k = .ok (resp k) ∧ (resp k).pages = P) →
      1 ≤ P → P ≤ fuel →
        WarpGatewayInteractionsLoader.load gw fuel
          = some (.ok (((List.range' 1 P).map
              (fun k => (resp k).interactions.map tagWithStatus)).flatten)))
    ∧ (∀ j status, 1 ≤ j → j ≤ P → gw j = .error status →
        (∀ k, 1 ≤ k → k < j → gw k = .ok (resp k) ∧ (resp k).pages = P) → j ≤ fuel →
        WarpGatewayInteractionsLoader.load gw fuel = some (.error ⟨status⟩)) := by
  constructor
  · intro hcons hP hfuel
    have h := loadPagesGo_ok gw resp P hcons fuel 0 [] (by omega) (by omega)
    simpa [WarpGatewayInteractionsLoader.load] using h
  · intro j status hj1 hjP herr hpre hfuel
    have h := loadPagesGo_err gw resp P j status hjP hpre herr fuel 0 [] (by omega) (by omega)
    simpa [WarpGatewayInteractionsLoader.load] using h

/-! ### C7 -/

/-- C7: when `CacheableStateEvaluator.eval` finds no missing interactions, a
non-null cached state is returned verbatim (same sort-key and value, cache
untouched, no fold), and a null cached state makes it persist the contract's
`initState` with empty `validity` / `errorMessages` at the genesis sort-key
and return exactly that. -/
theorem cacheableEval_no_missing (S : Type) (env : EvalEnv S) (cache : SortKeyCache S)
    (cachedState : Option (SortKeyCacheResult S)) (requestedSortKey : Option String)
    (sortedInteractions : List GQLNodeInterface) (currentTx : List CurrentTx)
    (contractTxId : String) (initState : S)
    (hempty : infLoopGuard currentTx contractTxId sortedInteractions = []) :
    (∀ cs, cachedState = some cs →
        CacheableStateEvaluator.eval env cache cachedState requestedSortKey
          sortedInteractions currentTx contractTxId initState = .ok (cache, cs))
    ∧ (cachedState = none →
        CacheableStateEvaluator.eval env cache cachedState requestedSortKey
          sortedInteractions currentTx contractTxId initState
          = .ok (cachePut cache contractTxId genesisSortKey ⟨initState, [], []⟩,
                 ⟨some genesisSortKey, ⟨initState, [], []⟩⟩)) := by
  constructor
  · intro cs hcs
    subst hcs
    by_cases hhit : cs.sortKey = requestedSortKey
    · simp [CacheableStateEvaluator.eval, hhit]
    · simp [CacheableStateEvaluator.eval, hhit, evalRest, hempty]
  · intro hcs
    subst hcs
    simp [CacheableStateEvaluator.eval, evalRest, hempty]

/-- C7 witness: with an empty interaction list and a cold cache, `eval`
persists and returns the initial state at the genesis sort-key. -/
theorem cacheableEval_no_missing_witness :
    CacheableStateEvaluator.eval envA ([] : SortKeyCache Nat) none none [] [] "c" 7
      = .ok (cachePut [] "c" genesisSortKey ⟨7, [], []⟩,
             ⟨some genesisSortKey, ⟨7, [], []⟩⟩) :=
  (cacheableEval_no_missing Nat envA [] none none [] [] "c" 7 rfl).2 rfl

/-! ### C10 (corrected) -/

/-- C10 counterexample: calling `prune` with an `undefined` argument applies
the JS default value `5`, not `1` — a contract holding 2 entries is left
untouched, while the claim's reading (`undefined` treated as `1`) would
retain only the greatest key. -/
theorem prune_undefined_uses_default_five :
    LevelDbCache.prune [("c1", ["a", "b"])] .undef = [("c1", ["a", "b"])]
    ∧ LevelDbCache.prune [("c1", ["a", "b"])] (.val 1) = [("c1", ["b"])]
    ∧ ([("c1", ["a", "b"])] : List (String × List String)) ≠ [("c1", ["b"])] := by
  refine ⟨by decide, by decide, by decide⟩

theorem one_le_effectiveEntriesStored (es : JsArg Int) :
    1 ≤ (effectiveEntriesStored es).toNat := by
  rcases es with _ | _ | k
  · decide
  · decide
  · simp only [effectiveEntriesStored]
    by_cases h : k = 0 ∨ k ≤ 0
    · rw [if_pos h]; decide
    · rw [if_neg h]; omega

theorem pruneContract_sorted (n : Nat) (keys : List String)
    (hn : 1 ≤ n) (hlen : n ≤ keys.length)
    (hs : List.Pairwise (fun a b => strLt a.data b.data = true) keys) :
    pruneContract n keys = keys.drop (keys.length - n) := by
  have hlen' : (keys.reverse.take n).length = n := by
    simp only [List.length_take, List.length_reverse]
    omega
  have hrev : keys.reverse.take n = (keys.drop (keys.length - n)).reverse := by
    have h1 : (keys.reverse.take n).reverse = keys.drop (keys.length - n) := by
      rw [List.reverse_take]
      simp
    calc keys.reverse.take n = ((keys.reverse.take n).reverse).reverse := by simp
      _ = (keys.drop (keys.length - n)).reverse := by rw [h1]
  have hmlt : keys.length - n < keys.length := by omega
  have hdlen : (keys.drop (keys.length - n)).length = n := by
    rw [List.length_drop]
    omega
  have hdne : keys.drop (keys.length - n) ≠ [] := by
    intro hnil
    rw [hnil] at hdlen
    simp at hdlen
    omega
  obtain ⟨b, bs, hbbs⟩ := List.exists_cons_of_ne_nil hdne
  have hlast : (keys.reverse.take n).getLast? = some b := by
    rw [hrev, List.getLast?_reverse, hbbs]
    rfl
  have hsplit := List.take_append_drop (keys.length - n) keys
  have hs2 : List.Pairwise (fun a b => strLt a.data b.data = true)
      (keys.take (keys.length - n) ++ keys.drop (keys.length - n)) := by
    rw [hsplit]; exact hs
  rw [List.pairwise_append] at hs2
  obtain ⟨hs_take, hs_drop, hcross⟩ := hs2
  have hcond : ¬((keys.reverse.take n).length < n) := by omega
  simp only [pruneContract]
  rw [if_neg hcond, hlast]
  have h1 : (keys.take (keys.length - n)).filter (fun k => !strLt k.data b.data) = [] := by
    rw [List.filter_eq_nil_iff]
    intro x hx
    have hxb : strLt x.data b.data = true :=
      hcross x hx b (by rw [hbbs]; exact List.mem_cons_self b bs)
    simp [hxb]
  have h2 : (keys.drop (keys.length - n)).filter (fun k => !strLt k.data b.data)
      = keys.drop (keys.length - n) := by
    rw [List.filter_eq_self]
    intro y hy
    rw [hbbs] at hy
    have hs_drop' := hbbs ▸ hs_drop
    rcases List.mem_cons.mp hy with rfl | hy2
    · simp [strLt_irrefl]
    · have hby : strLt b.data y.data = true := (List.pairwise_cons.mp hs_drop').1 y hy2
      simp [strLt_asymm _ _ hby]
  calc keys.filter (fun k => !strLt k.data b.data)
      = (keys.take (keys.length - n) ++ keys.drop (keys.length - n)).filter
          (fun k => !strLt k.data b.data) := by rw [hsplit]
    _ = keys.drop (keys.length - n) := by rw [List.filter_append, h1, h2]; simp

/-- C10 as amended: `prune(entriesStored)` treats `null` and non-positive
values as `1` but an `undefined` argument as the declared default `5`; with
the effective count `n`, a contract sublevel holding fewer than `n` entries
is left untouched, and one holding at least `n` retains exactly the `n`
entries with the greatest sort-keys, all smaller ones being removed. -/
theorem prune_retains_most_recent (es : JsArg Int) (keys : List String)
    (hs : List.Pairwise (fun a b => strLt a.data b.data = true) keys) :
    ((es = .null ∨ ∃ k, es = .val k ∧ k ≤ 0) → effectiveEntriesStored es = 1)
    ∧ (es = .undef → effectiveEntriesStored es = 5)
    ∧ (keys.length < (effectiveEntriesStored es).toNat →
        pruneContract (effectiveEntriesStored es).toNat keys = keys)
    ∧ ((effectiveEntriesStored es).toNat ≤ keys.length →
        pruneContract (effectiveEntriesStored es).toNat keys
          = keys.drop (keys.length - (effectiveEntriesStored es).toNat)) := by
  refine ⟨?_, ?_, ?_, ?_⟩
  · rintro (rfl | ⟨k, rfl, hk⟩)
    · rfl
    · simp [effectiveEntriesStored, Or.inr hk]
  · rintro rfl
    rfl
  · intro hlt
    have hclen : (keys.reverse.take (effectiveEntriesStored es).toNat).length
        = keys.length := by
      simp only [List.length_take, List.length_reverse]
      omega
    simp only [pruneContract]
    rw [if_pos (by omega)]
  · intro hge
    exact pruneContract_sorted _ keys (one_le_effectiveEntriesStored es) hge hs

/-- C10 witness: with `entriesStored = 2` on a three-entry contract, the two
greatest keys are retained. -/
theorem prune_retains_most_recent_witness :
    ((JsArg.val (2 : Int) = .null ∨ ∃ k, JsArg.val (2 : Int) = .val k ∧ k ≤ 0) →
        effectiveEntriesStored (.val 2) = 1)
    ∧ (JsArg.val (2 : Int) = .undef → effectiveEntriesStored (.val 2) = 5)
    ∧ ((["a", "b", "c"] : List String).length < (effectiveEntriesStored (.val 2)).toNat →
        pruneContract (effectiveEntriesStored (.val 2)).toNat ["a", "b", "c"]
          = ["a", "b", "c"])
    ∧ ((effectiveEntriesStored (.val 2)).toNat ≤ (["a", "b", "c"] : List String).length →
        pruneContract (effectiveEntriesStored (.val 2)).toNat ["a", "b", "c"]
          = List.drop ((["a", "b", "c"] : List String).length
              - (effectiveEntriesStored (.val 2)).toNat) ["a", "b", "c"]) :=
  prune_retains_most_recent (.val 2) ["a", "b", "c"] (by decide)

/-! ### C9 -/

/-- C9: once `CacheableInteractionsLoader.load` has memoized a contract's
interactions, any later call whose `toSortKey` does not compare strictly
greater than the last memoized interaction's `sortKey` returns the whole
memoized list unchanged — the caller's `(fromSortKey, toSortKey]` bounds are
not re-applied to the cached list. -/
theorem cacheableInteractionsLoader_memo_hit
    (delegate : String → Option String → Option String → List GQLNodeInterface)
    (memo : List (String × List GQLNodeInterface)) (contractTxId : String)
    (fromSortKey toSortKey : Option String) (cached : List GQLNodeInterface)
    (tlast : GQLNodeInterface)
    (hmem : lookupKV memo contractTxId = some cached)
    (hlast : cached.getLast? = some tlast)
    (hle : jsLocaleCompareLt tlast.sortKey toSortKey = false) :
    CacheableInteractionsLoader.load delegate memo contractTxId fromSortKey toSortKey
      = (memo, cached) := by
  simp [CacheableInteractionsLoader.load, hmem, hlast, hle]

/-- C9 witness: with `"5"` memoized last and `toSortKey = "4"`, the whole
memoized list is returned although it lies outside the requested range. -/
theorem cacheableInteractionsLoader_memo_hit_witness :
    CacheableInteractionsLoader.load (fun _ _ _ => [])
        [("c", [⟨"i1", "5", false, none, "o", none, [], ""⟩])] "c" (some "0") (some "4")
      = ([("c", [⟨"i1", "5", false, none, "o", none, [], ""⟩])],
         [⟨"i1", "5", false, none, "o", none, [], ""⟩]) :=
  cacheableInteractionsLoader_memo_hit (fun _ _ _ => [])
    [("c", [⟨"i1", "5", false, none, "o", none, [], ""⟩])] "c" (some "0") (some "4")
    [⟨"i1", "5", false, none, "o", none, [], ""⟩] ⟨"i1", "5", false, none, "o", none, [], ""⟩
    rfl rfl (by decide)

end Warp
